import Mathlib

/-!
Shallow embedding of the io-engine core (merge submitter, request record,
merged completion fan-out, and the byte-copy helper) together with proofs
of the spec claims about them.

Sources embedded:
- `src/tasks.rs`: `IOEvent_` record, `set_copied`, `set_error`,
  `callback_merged`.
- `src/merge.rs`: `MergeBuffer` (`may_add_event`, `push_event`, `take`,
  `flush`) and `MergeSubmitter::add_event`.
- `src/buffer/utils.rs`: `safe_copy`.

Buffers are byte lists (`List Nat`); `i32` values are `Int` with explicit
two's-complement wrapping (`wrap32`) where the Rust code can wrap.
Callback invocation is modelled as emission into an output list, in
invocation order.
-/

namespace IoEngine

/-- Two's-complement wrap of an integer into the `i32` range. Models the
release-mode behaviour of Rust `as i32` casts and wrapping arithmetic. -/
def wrap32 (n : Int) : Int := (n + 2 ^ 31) % 2 ^ 32 - 2 ^ 31

/-- The `i32::MIN` sentinel that marks a not-yet-done event
(`res` initialiser in `IOEvent::new`). -/
def i32min : Int := -(2 ^ 31)

/-- Linux `EINVAL`, as used by `nix::errno::Errno::EINVAL as i32`. -/
def EINVAL : Int := 22

/-- Linux `ENOMEM`, as used by `libc::ENOMEM` in `MergeBuffer::flush`. -/
def ENOMEM : Int := 12

/-- `IOAction` from `src/tasks.rs`. -/
inductive IOAction where
  | Read
  | Write
  | Alloc
  | Fsync
deriving DecidableEq, Repr

/-- `BufOrLen` from `src/tasks.rs`: an owned buffer (modelled as the list of
its bytes) or a length-only payload. -/
inductive BufOrLen where
  | buffer (b : List Nat)
  | len (n : Nat)
deriving DecidableEq, Repr

/-- `IOEvent_` from `src/tasks.rs` (the heap record behind `IOEvent`).
The intrusive list node is representation only and is dropped; `sub_tasks`
is the ordered child list of a merged master. The callback slot is not
carried: callback invocation is modelled as emission into an output list. -/
structure IOEvent where
  buf_or_len : BufOrLen
  offset : Int
  action : IOAction
  fd : Int
  res : Int
  sub_tasks : List IOEvent

namespace IOEvent

/-- `IOEvent::get_size`: buffer length for a buffered event, 0 otherwise. -/
def get_size (e : IOEvent) : Nat :=
  match e.buf_or_len with
  | .buffer b => b.length
  | .len _ => 0

/-- `IOEvent::set_copied`: if `res` is the sentinel, set it to `len as i32`;
otherwise add `len as i32` (i32 arithmetic, wrapping). -/
def set_copied (e : IOEvent) (len : Nat) : IOEvent :=
  if e.res = i32min then { e with res := wrap32 len }
  else { e with res := wrap32 (e.res + wrap32 len) }

/-- `IOEvent::set_error`: 0 is replaced by `EINVAL`, a positive errno is
negated, and the (now negative) value is stored in `res`. -/
def set_error (e : IOEvent) (errno : Int) : IOEvent :=
  let e1 := if errno = 0 then EINVAL else errno
  let e2 := if e1 > 0 then -e1 else e1
  { e with res := e2 }

end IOEvent

/-- `safe_copy` from `src/buffer/utils.rs`: returns the new contents of
`dst` together with the number of bytes copied. Each branch mirrors the
corresponding `copy_from_slice` call of the source. -/
def safe_copy (dst src : List Nat) : List Nat × Nat :=
  let len := dst.length
  let other_len := src.length
  if other_len > len then (src.take len, len)
  else if other_len < len then (src ++ dst.drop other_len, other_len)
  else (src, len)

/-- Rust `<[u8]>::copy_from_slice`, which panics unless the two slices have
equal length: `none` models the panic. -/
def copy_from_slice (dst src : List Nat) : Option (List Nat) :=
  if src.length = dst.length then some src else none

/-- Rust range slicing `l[0..n]`, which panics when `n` is out of bounds:
`none` models the panic. -/
def slice_to (l : List Nat) (n : Nat) : Option (List Nat) :=
  if n ≤ l.length then some (l.take n) else none

/-- `safe_copy` with the panicking primitives modelled explicitly: every
slice bound and `copy_from_slice` length check is performed, and `none`
stands for a panic. Used to show `safe_copy` is total. -/
def safe_copy_checked (dst src : List Nat) : Option (List Nat × Nat) :=
  let len := dst.length
  let other_len := src.length
  if other_len > len then
    match slice_to src len with
    | some s => (copy_from_slice dst s).map (fun d => (d, len))
    | none => none
  else if other_len < len then
    match slice_to dst other_len with
    | some dpre =>
      (copy_from_slice dpre src).map (fun d => (d ++ dst.drop other_len, other_len))
    | none => none
  else (copy_from_slice dst src).map (fun d => (d, len))

namespace IOEvent

/-- The Read arm of `callback_merged` (`src/tasks.rs`): walk the children in
staging order with a cursor `b` over the master buffer, `safe_copy` into
each child buffer, record the copied count, advance the cursor, and dispatch
every child. A child without a buffer is dispatched untouched. -/
def readFanout (b : List Nat) : List IOEvent → List IOEvent
  | [] => []
  | t :: rest =>
    match t.buf_or_len with
    | .buffer sub_buf =>
      if b.length = 0 then
        (t.set_copied 0) :: readFanout b rest
      else
        let r := safe_copy sub_buf b
        ({ t with buf_or_len := .buffer r.1 }.set_copied r.2) :: readFanout (b.drop r.2) rest
    | .len _ => t :: readFanout b rest

/-- The Write arm of `callback_merged` (`src/tasks.rs`): each child records
its own size clamped to `l` (the master's buffer size in the source) and is
dispatched in staging order. -/
def writeFanout (l : Nat) (tasks : List IOEvent) : List IOEvent :=
  tasks.map (fun t => t.set_copied (min t.get_size l))

/-- `IOEvent::callback_merged` from `src/tasks.rs`. The returned list holds
the events whose callback is invoked, in invocation order, each carrying its
final state. -/
def callback_merged (e : IOEvent) : List IOEvent :=
  match e.sub_tasks with
  | [] => [e]
  | _ :: _ =>
    if e.res ≥ 0 then
      if e.action = .Read then
        match e.buf_or_len with
        | .buffer buffer => readFanout buffer e.sub_tasks
        | .len _ => []
      else writeFanout e.get_size e.sub_tasks
    else e.sub_tasks.map (fun t => t.set_error (wrap32 (-e.res)))

end IOEvent

/-- `MergeBuffer` from `src/merge.rs`: the staging state of the merge
submitter for one (fd, action) pair. -/
structure MergeBuffer where
  merge_size_limit : Nat
  merged_events : List IOEvent
  merged_offset : Int
  merged_data_size : Nat

namespace MergeBuffer

/-- `MergeBuffer::new`. -/
def new (merge_size_limit : Nat) : MergeBuffer :=
  { merge_size_limit := merge_size_limit
    merged_events := []
    merged_offset := -1
    merged_data_size := 0 }

/-- `MergeBuffer::may_add_event`: admit unconditionally into an empty stage;
otherwise require the size limit to be respected and the event to be
contiguous with the staged range. -/
def may_add_event (mb : MergeBuffer) (e : IOEvent) : Bool :=
  if mb.merged_events.isEmpty then true
  else if mb.merge_size_limit < mb.merged_data_size + e.get_size then false
  else decide (mb.merged_offset + (mb.merged_data_size : Int) = e.offset)

/-- `MergeBuffer::push_event`: record the merge-start offset on the first
push, accumulate the size, append the event, and report whether the stage
has reached the size limit. -/
def push_event (mb : MergeBuffer) (e : IOEvent) : MergeBuffer × Bool :=
  let mb1 := if mb.merged_events.isEmpty then { mb with merged_offset := e.offset } else mb
  let mb2 := { mb1 with
    merged_data_size := mb1.merged_data_size + e.get_size
    merged_events := mb1.merged_events ++ [e] }
  (mb2, decide (mb2.merge_size_limit ≤ mb2.merged_data_size))

/-- `MergeBuffer::take`: move the staged list and its metadata out,
resetting the buffer. -/
def take (mb : MergeBuffer) : MergeBuffer × (List IOEvent × Int × Nat) :=
  ({ mb with merged_events := [], merged_offset := -1, merged_data_size := 0 },
   (mb.merged_events, mb.merged_offset, mb.merged_data_size))

end MergeBuffer

/-- `Buffer::copy_from` from `src/buffer/buffer.rs`: overwrite
`buf[offset..]` with a `safe_copy` from `other`. -/
def buffer_copy_from (buf : List Nat) (offset : Nat) (other : List Nat) : List Nat :=
  buf.take offset ++ (safe_copy (buf.drop offset) other).1

/-- One iteration of the Write arm of `MergeBuffer::flush`: copy the staged
child's buffer into the master buffer at the running offset (children
without a buffer are skipped, matching the `if let` in the source). -/
def fill_write_step (acc : List Nat × Nat) (t : IOEvent) : List Nat × Nat :=
  match t.buf_or_len with
  | .buffer b => (buffer_copy_from acc.1 acc.2 b, acc.2 + b.length)
  | .len _ => acc

/-- The Write arm of `MergeBuffer::flush`: copy every staged child's buffer
into the master buffer at its running offset. -/
def fill_write_buffer (buffer : List Nat) (tasks : List IOEvent) : List Nat :=
  (tasks.foldl fill_write_step (buffer, 0)).1

/-- Outcome of `MergeBuffer::flush`: nothing staged, a single forwarded
event, a merged master, or the allocation-failure path in which the staged
children are error-dispatched (in staging order) and no master is returned. -/
inductive FlushOut where
  | nothing
  | single (e : IOEvent)
  | master (e : IOEvent)
  | allocFail (dispatched : List IOEvent)

namespace MergeBuffer

/-- `MergeBuffer::flush` from `src/merge.rs`. `allocOk` stands for the
outcome of `Buffer::aligned`; the fresh allocation's (uninitialised)
contents are modelled as zero bytes. -/
def flush (mb : MergeBuffer) (allocOk : Bool) (fd : Int) (action : IOAction) :
    MergeBuffer × FlushOut :=
  match mb.merged_events with
  | [] => (mb, .nothing)
  | [e] =>
    ({ mb with merged_events := [], merged_offset := -1, merged_data_size := 0 },
     .single { e with fd := fd })
  | _ :: _ :: _ =>
    let t := mb.take
    let tasks := t.2.1
    let offset := t.2.2.1
    let size := t.2.2.2
    if allocOk then
      let buffer0 := List.replicate size 0
      let buffer := if action = .Write then fill_write_buffer buffer0 tasks else buffer0
      let ev : IOEvent :=
        { buf_or_len := .buffer buffer, fd := fd, action := action, offset := offset,
          res := i32min, sub_tasks := tasks }
      (t.1, .master ev)
    else
      (t.1, .allocFail (tasks.map (fun e => e.set_error ENOMEM)))

end MergeBuffer

/-- `MergeSubmitter` from `src/merge.rs` (the channel sender is modelled by
the `sendOk` flag of the operations below). -/
structure MergeSubmitter where
  fd : Int
  buffer : MergeBuffer
  action : IOAction

/-- Observable outcome of one `MergeSubmitter` internal flush: the new
submitter state, the events sent to the ingress channel, the events whose
callback was dispatched, and whether the flush succeeded (`ok = false`
models the channel-closed `io::Error`). -/
structure FlushStep where
  submitter : MergeSubmitter
  sent : List IOEvent
  dispatched : List IOEvent
  ok : Bool

/-- Observable outcome of `MergeSubmitter::add_event`: the new state, the
events sent, the events dispatched to callbacks (in order), and the returned
`Result` (`ok = false` is `Err`). -/
structure AddOutcome where
  submitter : MergeSubmitter
  sent : List IOEvent
  dispatched : List IOEvent
  ok : Bool

namespace MergeSubmitter

/-- `MergeSubmitter::_flush`: flush the staging buffer and send any produced
event; a failed send consumes the event and reports the error. -/
def subFlush (s : MergeSubmitter) (allocOk sendOk : Bool) : FlushStep :=
  let r := s.buffer.flush allocOk s.fd s.action
  let s1 : MergeSubmitter := { s with buffer := r.1 }
  match r.2 with
  | .nothing => ⟨s1, [], [], true⟩
  | .single e => if sendOk then ⟨s1, [e], [], true⟩ else ⟨s1, [], [], false⟩
  | .master e => if sendOk then ⟨s1, [e], [], true⟩ else ⟨s1, [], [], false⟩
  | .allocFail ds => ⟨s1, [], ds, true⟩

/-- The tail of `MergeSubmitter::add_event` after the possible leading
flush: push the event and, when the stage reports full, flush again.
`sent0`/`disp0` carry what the leading flush already produced. -/
def add_push (s : MergeSubmitter) (e : IOEvent) (allocOk sendOk : Bool)
    (sent0 disp0 : List IOEvent) : AddOutcome :=
  let p := s.buffer.push_event e
  let s1 : MergeSubmitter := { s with buffer := p.1 }
  if p.2 then
    let f := s1.subFlush allocOk sendOk
    ⟨f.submitter, sent0 ++ f.sent, disp0 ++ f.dispatched, f.ok⟩
  else ⟨s1, sent0, disp0, true⟩

/-- `MergeSubmitter::add_event` from `src/merge.rs`: flush first when the
event is oversized or fails admission; when that flush errors the incoming
event's callback is invoked (its record untouched) and the error is
returned; otherwise push and flush again if the stage became full. -/
def add_event (s : MergeSubmitter) (e : IOEvent) (allocOk sendOk : Bool) : AddOutcome :=
  if s.buffer.merge_size_limit ≤ e.get_size ∨ s.buffer.may_add_event e = false then
    let f := s.subFlush allocOk sendOk
    if f.ok then f.submitter.add_push e allocOk sendOk f.sent f.dispatched
    else ⟨f.submitter, f.sent, f.dispatched ++ [e], false⟩
  else s.add_push e allocOk sendOk [] []

end MergeSubmitter

/-- Repeated admission into a `MergeBuffer`: each event is pushed only after
`may_add_event` admits it; `none` when some event is rejected. -/
def addAll : MergeBuffer → List IOEvent → Option MergeBuffer
  | mb, [] => some mb
  | mb, e :: rest =>
    if mb.may_add_event e then addAll (mb.push_event e).1 rest else none

/-- Total size of a list of events, child by child (`get_size`). -/
def sizesSum (es : List IOEvent) : Nat := (es.map IOEvent.get_size).sum

/-- The events of a list occupy contiguous offsets starting at `off`. -/
def contiguousFrom (off : Int) : List IOEvent → Prop
  | [] => True
  | e :: rest => e.offset = off ∧ contiguousFrom (off + (e.get_size : Int)) rest

/-- Invariant of a `MergeBuffer` reachable through guarded pushes: the
accumulated size is the sum of the staged sizes and, when the stage is not
empty, the staged events are contiguous from the recorded merge start. -/
def stageInv (mb : MergeBuffer) : Prop :=
  mb.merged_data_size = sizesSum mb.merged_events ∧
  (mb.merged_events ≠ [] → contiguousFrom mb.merged_offset mb.merged_events)

/-- `is_done` from `src/tasks.rs`: the result differs from the sentinel. -/
def IOEvent.is_done (e : IOEvent) : Bool := decide (e.res ≠ i32min)

/-- The result stored by `set_error`, written after the words of the spec:
0 becomes the negated invalid-argument code, a positive errno is negated,
a negative errno is stored as given. -/
def set_error_result_spec (errno : Int) : Int :=
  if errno = 0 then -EINVAL else if errno > 0 then -errno else errno

-- Concrete instances used by witnesses and counterexamples ------------------

/-- Concrete event used by the C8 witness. -/
def ev8 : IOEvent := ⟨.buffer [0, 0, 0, 0, 0, 0, 0, 0], 0, .Write, 3, 5, []⟩

/-- Concrete two-event stage used by the C6 witness. -/
def mb6 : MergeBuffer :=
  ⟨8, [⟨.buffer [1, 1], 0, .Write, 3, i32min, []⟩,
       ⟨.buffer [2, 2], 2, .Write, 3, i32min, []⟩], 0, 4⟩

/-- Concrete errored master used by the C4 witness: result `-5` (EIO),
two children. -/
def ev4 : IOEvent :=
  ⟨.buffer [0, 0], 0, .Write, 3, -5,
   [⟨.buffer [1], 0, .Write, 3, i32min, []⟩, ⟨.buffer [2], 1, .Write, 3, i32min, []⟩]⟩

/-- A merged Write master that completed short: result 0 with a 2-byte
buffer and two 1-byte children. -/
def wMaster : IOEvent :=
  ⟨.buffer [0, 0], 0, .Write, 3, 0,
   [⟨.buffer [0], 0, .Write, 3, i32min, []⟩, ⟨.buffer [0], 1, .Write, 3, i32min, []⟩]⟩

/-- A merged Read master that completed short: result 0 with a 2-byte buffer
holding bytes `[7, 7]` and two 1-byte children whose buffers hold `[0]`. -/
def rMaster : IOEvent :=
  ⟨.buffer [7, 7], 0, .Read, 3, 0,
   [⟨.buffer [0], 0, .Read, 3, i32min, []⟩, ⟨.buffer [0], 1, .Read, 3, i32min, []⟩]⟩

/-- Concrete single-event stage for the C7 scenarios. -/
def stagedEv : IOEvent := ⟨.buffer [0, 0], 0, .Write, 3, i32min, []⟩

/-- Concrete incoming event whose size reaches the merge limit. -/
def bigEv : IOEvent := ⟨.buffer [9, 9, 9, 9], 100, .Write, 3, i32min, []⟩

/-- Concrete submitter (limit 4, one staged event) for the C7 scenarios. -/
def subC7 : MergeSubmitter := ⟨3, ⟨4, [stagedEv], 0, 2⟩, .Write⟩

/-- Concrete admitted pair of events used by the C3 witness. -/
def evA : IOEvent := ⟨.buffer [1, 1], 0, .Write, 3, i32min, []⟩

/-- Second concrete admitted event for the C3 witness, contiguous with
`evA`. -/
def evB : IOEvent := ⟨.buffer [2, 2], 2, .Write, 3, i32min, []⟩

/-- The `MergeBuffer` state after admitting `evA` then `evB` from a fresh
stage with limit 8. -/
def mbC : MergeBuffer := ⟨8, [evA, evB], 0, 4⟩

-- Helper lemmas -------------------------------------------------------------

theorem safe_copy_count (dst src : List Nat) :
    (safe_copy dst src).2 = min dst.length src.length := by
  unfold safe_copy
  dsimp only
  split_ifs <;> omega

theorem safe_copy_length (dst src : List Nat) :
    (safe_copy dst src).1.length = dst.length := by
  unfold safe_copy
  dsimp only
  split_ifs with h1 h2 <;> simp <;> omega

theorem safe_copy_take (dst src : List Nat) :
    (safe_copy dst src).1.take (min dst.length src.length) =
      src.take (min dst.length src.length) := by
  unfold safe_copy
  dsimp only
  split_ifs with h1 h2
  · simp [List.take_take]
  · have hmin : min dst.length src.length = src.length := by omega
    rw [hmin, List.take_left' rfl, List.take_of_length_le (le_refl _)]
  · have hmin : min dst.length src.length = dst.length := by omega
    simp

theorem safe_copy_drop (dst src : List Nat) :
    (safe_copy dst src).1.drop (min dst.length src.length) =
      dst.drop (min dst.length src.length) := by
  unfold safe_copy
  dsimp only
  split_ifs with h1 h2
  · have hmin : min dst.length src.length = dst.length := by omega
    rw [hmin]
    rw [List.drop_of_length_le (by simp), List.drop_of_length_le (le_refl _)]
  · have hmin : min dst.length src.length = src.length := by omega
    rw [hmin, List.drop_left' rfl]
  · have hmin : min dst.length src.length = dst.length := by omega
    have hlen : dst.length = src.length := by omega
    rw [hmin, hlen]
    rw [List.drop_of_length_le (le_refl _), List.drop_of_length_le (le_of_eq hlen)]

theorem safe_copy_checked_eq (dst src : List Nat) :
    safe_copy_checked dst src = some (safe_copy dst src) := by
  unfold safe_copy_checked safe_copy slice_to copy_from_slice
  dsimp only
  rcases Nat.lt_trichotomy src.length dst.length with h | h | h
  · have h1 : ¬ src.length > dst.length := by omega
    have h2 : src.length < dst.length := h
    simp only [h1, if_false, h2, if_true, if_pos (Nat.le_of_lt h)]
    have hl : src.length = (dst.take src.length).length := by
      simp; omega
    simp [← hl]
  · have h1 : ¬ src.length > dst.length := by omega
    have h2 : ¬ src.length < dst.length := by omega
    simp [h1, h2, h]
  · have h1 : src.length > dst.length := h
    simp only [h1, if_true, if_pos (Nat.le_of_lt h)]
    have hl : (src.take dst.length).length = dst.length := by
      simp; omega
    simp [hl]

-- Claim theorems ------------------------------------------------------------

/-- C10: for every destination slice `dst` and source slice `src`,
`safe_copy dst src` copies exactly `min (dst.length) (src.length)` bytes from
the beginning of `src` to the beginning of `dst`, returns that count, leaves
the remaining tail of `dst` unmodified, and never panics (the variant with
explicit bound checks always returns a value), including on empty slices. -/
theorem safe_copy_spec (dst src : List Nat) :
    safe_copy_checked dst src = some (safe_copy dst src) ∧
    (safe_copy dst src).2 = min dst.length src.length ∧
    (safe_copy dst src).1.length = dst.length ∧
    (safe_copy dst src).1.take (min dst.length src.length) =
      src.take (min dst.length src.length) ∧
    (safe_copy dst src).1.drop (min dst.length src.length) =
      dst.drop (min dst.length src.length) :=
  ⟨safe_copy_checked_eq dst src, safe_copy_count dst src, safe_copy_length dst src,
   safe_copy_take dst src, safe_copy_drop dst src⟩

/-- C9: for every event and errno argument, `set_error` stores exactly the
normalised value (0 ↦ -EINVAL, positive ↦ negated, negative ↦ as given) and
the stored result is negative. -/
theorem set_error_spec_ok (e : IOEvent) (errno : Int) :
    (e.set_error errno).res = set_error_result_spec errno ∧
    (e.set_error errno).res < 0 := by
  unfold IOEvent.set_error set_error_result_spec EINVAL
  dsimp only
  split_ifs <;> constructor <;> first | rfl | omega

/-- C8: `set_copied n` sets the result to `n` when the result holds the
not-done sentinel and otherwise adds `n` to it, provided the values involved
stay inside the `i32` range (they do in the engine: byte counts are bounded
by the buffer size, which is below `2 ^ 31`). -/
theorem set_copied_ok (e : IOEvent) (n : Nat)
    (h1 : (n : Int) < 2 ^ 31) (h2 : -(2 ^ 31) ≤ e.res) (h3 : e.res + (n : Int) < 2 ^ 31) :
    (e.set_copied n).res = if e.res = i32min then (n : Int) else e.res + n := by
  unfold IOEvent.set_copied wrap32 i32min
  have hn : (0 : Int) ≤ (n : Int) := Int.ofNat_nonneg n
  split_ifs with h
  · dsimp only
    omega
  · dsimp only
    unfold i32min at h
    omega

/-- Witness for C8 at a concrete event with result 5 and `n = 3`. -/
theorem set_copied_ok_witness :
    (((3 : Nat) : Int) < 2 ^ 31 ∧ -(2 ^ 31) ≤ ev8.res ∧ ev8.res + ((3 : Nat) : Int) < 2 ^ 31) ∧
    (ev8.set_copied 3).res = if ev8.res = i32min then ((3 : Nat) : Int) else ev8.res + (3 : Nat) :=
  ⟨⟨by norm_num, by norm_num [ev8], by norm_num [ev8]⟩,
   set_copied_ok ev8 3 (by norm_num) (by norm_num [ev8]) (by norm_num [ev8])⟩

/-- Characterisation of `may_add_event` (shared helper). -/
theorem may_add_event_iff (mb : MergeBuffer) (e : IOEvent) :
    mb.may_add_event e = true ↔
      (mb.merged_events = [] ∨
       (mb.merged_data_size + e.get_size ≤ mb.merge_size_limit ∧
        mb.merged_offset + (mb.merged_data_size : Int) = e.offset)) := by
  unfold MergeBuffer.may_add_event
  split_ifs with h1 h2
  · simp [List.isEmpty_iff] at h1
    simp [h1]
  · have hne : mb.merged_events ≠ [] := by
      simpa [List.isEmpty_iff] using h1
    simp [hne]
    omega
  · have hne : mb.merged_events ≠ [] := by
      simpa [List.isEmpty_iff] using h1
    simp [hne]
    intro _
    omega

/-- C5: `may_add_event` admits unconditionally when the stage is empty, and
otherwise admits exactly when the size limit is respected and the event is
contiguous with the staged range. -/
theorem may_add_event_spec (mb : MergeBuffer) (e : IOEvent) :
    mb.may_add_event e = true ↔
      (mb.merged_events = [] ∨
       (mb.merged_data_size + e.get_size ≤ mb.merge_size_limit ∧
        mb.merged_offset + (mb.merged_data_size : Int) = e.offset)) :=
  may_add_event_iff mb e

/-- `set_error ENOMEM` only writes the negated out-of-memory code. -/
theorem set_error_ENOMEM (e : IOEvent) : e.set_error ENOMEM = { e with res := -ENOMEM } := by
  unfold IOEvent.set_error ENOMEM
  norm_num

/-- C6: when `flush` holds two or more staged events and the consolidated
buffer allocation fails, every staged child gets the negated out-of-memory
code as its result, every child is dispatched in staging order, the stage is
reset, and no master is produced (the `allocFail` outcome stands for the
`None` return after dispatching). -/
theorem flush_alloc_fail (mb : MergeBuffer) (fd : Int) (action : IOAction)
    (h : 2 ≤ mb.merged_events.length) :
    mb.flush false fd action =
      ({ mb with merged_events := [], merged_offset := -1, merged_data_size := 0 },
       .allocFail (mb.merged_events.map (fun e => { e with res := -ENOMEM }))) := by
  match hev : mb.merged_events with
  | [] => simp [hev] at h
  | [e] => simp [hev] at h
  | e1 :: e2 :: rest =>
    unfold MergeBuffer.flush MergeBuffer.take
    rw [hev]
    dsimp only
    rw [if_neg (by simp)]
    have hfun : (fun e => IOEvent.set_error e ENOMEM) =
        (fun e : IOEvent => { e with res := -ENOMEM }) := funext set_error_ENOMEM
    rw [hfun]

/-- Witness for C6 at a concrete two-event stage. -/
theorem flush_alloc_fail_witness :
    2 ≤ mb6.merged_events.length ∧
    mb6.flush false 3 .Write =
      ({ mb6 with merged_events := [], merged_offset := -1, merged_data_size := 0 },
       .allocFail (mb6.merged_events.map (fun e => { e with res := -ENOMEM }))) :=
  ⟨by decide, flush_alloc_fail mb6 3 .Write (by decide)⟩

/-- C4: on a merged master completing with a negative result and non-empty
children, `callback_merged` gives every child the master's result (the
negated errno) and dispatches every child in staging order. The lower bound
keeps the result inside the `i32` range; the claim holds even at the
sentinel, where the `-res` negation wraps. -/
theorem callback_merged_error (e : IOEvent)
    (hlo : -(2 ^ 31) ≤ e.res) (hneg : e.res < 0) (hne : e.sub_tasks ≠ []) :
    e.callback_merged = e.sub_tasks.map (fun t => { t with res := e.res }) := by
  have herr : ∀ t : IOEvent, t.set_error (wrap32 (-e.res)) = { t with res := e.res } := by
    intro t
    have hw : wrap32 (-e.res) = -e.res ∨
        (e.res = -(2 ^ 31) ∧ wrap32 (-e.res) = -(2 ^ 31)) := by
      unfold wrap32
      omega
    rcases hw with hw | ⟨hres, hw⟩
    · rw [hw]
      unfold IOEvent.set_error EINVAL
      dsimp only
      split_ifs <;> first | (exfalso; omega) | simp
    · rw [hw]
      unfold IOEvent.set_error EINVAL
      dsimp only
      split_ifs <;> first | (exfalso; omega) | rw [hres]
  match hev : e.sub_tasks with
  | [] => exact absurd hev hne
  | t :: rest =>
    unfold IOEvent.callback_merged
    rw [hev]
    dsimp only
    rw [if_neg (by omega), ← hev]
    exact List.map_congr_left (fun t _ => herr t)

/-- Witness for C4 at a concrete errored master. -/
theorem callback_merged_error_witness :
    (-(2 ^ 31) ≤ ev4.res ∧ ev4.res < 0 ∧ ev4.sub_tasks ≠ []) ∧
    ev4.callback_merged = ev4.sub_tasks.map (fun t => { t with res := ev4.res }) :=
  ⟨⟨by norm_num [ev4], by norm_num [ev4], by simp [ev4]⟩,
   callback_merged_error ev4 (by norm_num [ev4]) (by norm_num [ev4]) (by simp [ev4])⟩

/-- C1 (failing input): on a merged Write master with result 0 (short write)
and two 1-byte children, the code records a transfer of 1 for each child —
it clamps against the master's buffer size, never against the remaining
result — so the children's recorded results sum to 2, not to the master's
result 0. This contradicts `Σ child.result = master.result` and the claimed
`min(child.size, L_remaining)` attribution. -/
theorem callback_merged_short_write_bug :
    wMaster.res = 0 ∧
    wMaster.callback_merged.map (fun t => t.res) = [1, 1] ∧
    (wMaster.callback_merged.map (fun t => t.res)).sum = 2 := by
  refine ⟨rfl, ?_, ?_⟩ <;> decide

/-- C2 (failing input): on a merged Read master with result 0 (short read),
the code walks a cursor over the whole master buffer instead of its first
`result` bytes: both children receive 1 copied byte (the stale buffer
contents `7`) and record result 1, although the claim says every child past
the short-read frontier records 0 bytes. -/
theorem callback_merged_short_read_bug :
    rMaster.res = 0 ∧
    rMaster.callback_merged.map (fun t => t.res) = [1, 1] ∧
    rMaster.callback_merged.map (fun t => t.buf_or_len) = [.buffer [7], .buffer [7]] := by
  refine ⟨rfl, ?_, ?_⟩ <;> decide

/-- A failed `MergeSubmitter` flush empties the staging buffer: the error
can only come from the send of a produced (single or master) event, and both
producing paths reset the stage first. -/
theorem subFlush_fail_empty (s : MergeSubmitter) (allocOk sendOk : Bool)
    (h : (s.subFlush allocOk sendOk).ok = false) :
    (s.subFlush allocOk sendOk).submitter.buffer.merged_events = [] := by
  unfold MergeSubmitter.subFlush at h ⊢
  unfold MergeBuffer.flush MergeBuffer.take at h ⊢
  match hev : s.buffer.merged_events with
  | [] => simp_all
  | [e] =>
    dsimp only at h ⊢
    split_ifs at h ⊢ <;> simp_all
  | e1 :: e2 :: rest =>
    dsimp only at h ⊢
    split_ifs at h ⊢ <;> simp_all

/-- C7 (counterexample): with one staged event, an incoming event of size
equal to the merge limit, and a closed channel, `add_event` flushes, the
flush fails, the incoming event's callback is dispatched and the error is
returned — but no error is recorded in the event's result: the dispatched
event still carries the not-done sentinel (`is_done` is false), refuting
the claim that the callback is invoked with the error recorded in the
event's result. -/
theorem add_event_flush_error_counterexample :
    (subC7.add_event bigEv true false).ok = false ∧
    (subC7.add_event bigEv true false).dispatched.map (fun t => t.res) = [i32min] ∧
    (subC7.add_event bigEv true false).dispatched.map (fun t => t.is_done) = [false] := by
  refine ⟨?_, ?_, ?_⟩ <;> decide

/-- C7 (amended): when the incoming event is oversized or fails admission,
`add_event` flushes the stage first; if that flush fails, the incoming
event's callback is invoked with the event untouched (no error recorded in
its result) and the error is returned to the caller. The stage is left
empty by the failed flush. -/
theorem add_event_flush_error (s : MergeSubmitter) (e : IOEvent) (allocOk sendOk : Bool)
    (htrig : s.buffer.merge_size_limit ≤ e.get_size ∨ s.buffer.may_add_event e = false)
    (hfail : (s.subFlush allocOk sendOk).ok = false) :
    s.add_event e allocOk sendOk =
      ⟨(s.subFlush allocOk sendOk).submitter, (s.subFlush allocOk sendOk).sent,
       (s.subFlush allocOk sendOk).dispatched ++ [e], false⟩ ∧
    (s.add_event e allocOk sendOk).submitter.buffer.merged_events = [] := by
  have hmain : s.add_event e allocOk sendOk =
      ⟨(s.subFlush allocOk sendOk).submitter, (s.subFlush allocOk sendOk).sent,
       (s.subFlush allocOk sendOk).dispatched ++ [e], false⟩ := by
    unfold MergeSubmitter.add_event
    rw [if_pos htrig, if_neg (by simp [hfail])]
  refine ⟨hmain, ?_⟩
  rw [hmain]
  exact subFlush_fail_empty s allocOk sendOk hfail

/-- Witness for the amended C7 at the concrete submitter and event. -/
theorem add_event_flush_error_witness :
    ((subC7.buffer.merge_size_limit ≤ bigEv.get_size ∨ subC7.buffer.may_add_event bigEv = false) ∧
     (subC7.subFlush true false).ok = false) ∧
    (subC7.add_event bigEv true false =
      ⟨(subC7.subFlush true false).submitter, (subC7.subFlush true false).sent,
       (subC7.subFlush true false).dispatched ++ [bigEv], false⟩ ∧
     (subC7.add_event bigEv true false).submitter.buffer.merged_events = []) :=
  ⟨⟨Or.inl (by decide), by decide⟩,
   add_event_flush_error subC7 bigEv true false (Or.inl (by decide)) (by decide)⟩

-- C3: staging invariants of the merged master ------------------------------

/-- `Buffer::copy_from` preserves the destination length. -/
theorem buffer_copy_from_length (buf : List Nat) (offset : Nat) (other : List Nat) :
    (buffer_copy_from buf offset other).length = buf.length := by
  unfold buffer_copy_from
  rw [List.length_append, safe_copy_length, List.length_take, List.length_drop]
  omega

/-- The Write fill fold preserves the master buffer length. -/
theorem fill_write_foldl_length (tasks : List IOEvent) :
    ∀ acc : List Nat × Nat, ((tasks.foldl fill_write_step acc).1).length = acc.1.length := by
  induction tasks with
  | nil => intro acc; rfl
  | cons t rest ih =>
    intro acc
    rw [List.foldl_cons, ih]
    cases hb : t.buf_or_len <;> simp [fill_write_step, hb, buffer_copy_from_length]

/-- `fill_write_buffer` preserves the master buffer length. -/
theorem fill_write_buffer_length (buffer : List Nat) (tasks : List IOEvent) :
    (fill_write_buffer buffer tasks).length = buffer.length :=
  fill_write_foldl_length tasks (buffer, 0)

/-- `sizesSum` over a snoc. -/
theorem sizesSum_append (l : List IOEvent) (e : IOEvent) :
    sizesSum (l ++ [e]) = sizesSum l + e.get_size := by
  unfold sizesSum
  simp

/-- Appending a contiguous event keeps a list contiguous. -/
theorem contiguousFrom_append (l : List IOEvent) : ∀ (off : Int) (e : IOEvent),
    contiguousFrom off l → e.offset = off + (sizesSum l : Int) →
    contiguousFrom off (l ++ [e]) := by
  induction l with
  | nil =>
    intro off e _ he
    refine ⟨?_, trivial⟩
    simpa [sizesSum] using he
  | cons x xs ih =>
    intro off e hc he
    obtain ⟨hx, hrest⟩ := hc
    refine ⟨hx, ih (off + (x.get_size : Int)) e hrest ?_⟩
    have hs : sizesSum (x :: xs) = x.get_size + sizesSum xs := by
      unfold sizesSum
      simp
    rw [he, hs]
    push_cast
    ring

/-- The normal form of `push_event`. -/
theorem push_event_fst (mb : MergeBuffer) (e : IOEvent) :
    (mb.push_event e).1 =
      { mb with
        merged_offset := if mb.merged_events.isEmpty then e.offset else mb.merged_offset,
        merged_data_size := mb.merged_data_size + e.get_size,
        merged_events := mb.merged_events ++ [e] } := by
  unfold MergeBuffer.push_event
  by_cases h : mb.merged_events.isEmpty <;> simp [h]

/-- A fresh `MergeBuffer` satisfies the staging invariant. -/
theorem stageInv_new (limit : Nat) : stageInv (MergeBuffer.new limit) := by
  constructor
  · rfl
  · intro h
    exact absurd rfl h

/-- A guarded push preserves the staging invariant. -/
theorem stageInv_push (mb : MergeBuffer) (e : IOEvent)
    (hinv : stageInv mb) (hmay : mb.may_add_event e = true) :
    stageInv (mb.push_event e).1 := by
  obtain ⟨hsize, hcont⟩ := hinv
  rw [push_event_fst]
  by_cases hemp : mb.merged_events.isEmpty
  · have hnil : mb.merged_events = [] := by
      simpa [List.isEmpty_iff] using hemp
    have hsz : mb.merged_data_size = 0 := by
      rw [hnil] at hsize
      simpa [sizesSum] using hsize
    constructor
    · dsimp only
      simp [hnil, hsz, sizesSum]
    · intro _
      dsimp only
      rw [if_pos hemp, hnil]
      exact ⟨rfl, trivial⟩
  · have hne : mb.merged_events ≠ [] := by
      simpa [List.isEmpty_iff] using hemp
    have hoff : mb.merged_offset + (mb.merged_data_size : Int) = e.offset := by
      rcases (may_add_event_iff mb e).mp hmay with h | ⟨_, h⟩
      · exact absurd h hne
      · exact h
    constructor
    · dsimp only
      rw [sizesSum_append, ← hsize]
    · intro _
      dsimp only
      rw [if_neg hemp]
      exact contiguousFrom_append _ _ _ (hcont hne) (by rw [← hoff, hsize])

/-- `addAll` preserves the staging invariant. -/
theorem addAll_inv (es : List IOEvent) : ∀ mb mb2 : MergeBuffer,
    stageInv mb → addAll mb es = some mb2 → stageInv mb2 := by
  induction es with
  | nil =>
    intro mb mb2 hinv h
    cases h
    exact hinv
  | cons e rest ih =>
    intro mb mb2 hinv h
    unfold addAll at h
    split_ifs at h with hmay
    exact ih _ _ (stageInv_push mb e hinv hmay) h

/-- Positions of a contiguous list: the event at index `i` sits at the base
offset plus the sizes of the events before it. -/
theorem contiguousFrom_get (l : List IOEvent) : ∀ (off : Int) (i : Nat) (h : i < l.length),
    contiguousFrom off l → (l.get ⟨i, h⟩).offset = off + (sizesSum (l.take i) : Int) := by
  induction l with
  | nil =>
    intro off i h _
    exact absurd h (by simp)
  | cons x xs ih =>
    intro off i h hc
    obtain ⟨hx, hrest⟩ := hc
    match i with
    | 0 => simpa [sizesSum] using hx
    | j + 1 =>
      have hj : j < xs.length := by simpa using h
      have hstep := ih (off + (x.get_size : Int)) j hj hrest
      have hs : sizesSum ((x :: xs).take (j + 1)) = x.get_size + sizesSum (xs.take j) := by
        unfold sizesSum
        simp
      have hget : ((x :: xs).get ⟨j + 1, h⟩) = xs.get ⟨j, hj⟩ := rfl
      rw [hget, hstep, hs]
      push_cast
      ring

/-- The shape of the master event produced by a two-or-more-event `flush`
with a successful allocation. -/
theorem flush_master (mb : MergeBuffer) (fd : Int) (action : IOAction)
    (hlen : 2 ≤ mb.merged_events.length) :
    (mb.flush true fd action).2 = .master
      { buf_or_len := .buffer (if action = .Write
          then fill_write_buffer (List.replicate mb.merged_data_size 0) mb.merged_events
          else List.replicate mb.merged_data_size 0),
        offset := mb.merged_offset, action := action, fd := fd, res := i32min,
        sub_tasks := mb.merged_events } := by
  match hev : mb.merged_events with
  | [] => simp [hev] at hlen
  | [x] => simp [hev] at hlen
  | x :: y :: rest =>
    unfold MergeBuffer.flush MergeBuffer.take
    rw [hev]
    dsimp only
    rw [if_pos rfl, ← hev]

/-- C3: every stage built from a fresh `MergeBuffer` by `may_add_event`
guarded `push_event` calls and flushed with two or more staged children
yields a master whose buffer length is the sum of the children's sizes,
whose offset is the first child's offset, and whose every child sits at the
master offset plus the sizes of the children staged before it. -/
theorem merged_master_invariants (limit : Nat) (es : List IOEvent) (mb : MergeBuffer)
    (fd : Int) (action : IOAction)
    (hadd : addAll (MergeBuffer.new limit) es = some mb)
    (hlen : 2 ≤ mb.merged_events.length) :
    ∃ m : IOEvent, (mb.flush true fd action).2 = .master m ∧
      m.sub_tasks = mb.merged_events ∧
      (∃ b : List Nat, m.buf_or_len = .buffer b ∧ b.length = sizesSum m.sub_tasks) ∧
      (∀ a ∈ m.sub_tasks.head?, m.offset = a.offset) ∧
      (∀ i (h : i < m.sub_tasks.length),
        (m.sub_tasks.get ⟨i, h⟩).offset = m.offset + (sizesSum (m.sub_tasks.take i) : Int)) := by
  obtain ⟨hsize, hcont⟩ := addAll_inv es _ mb (stageInv_new limit) hadd
  have hne : mb.merged_events ≠ [] := by
    intro hnil
    rw [hnil] at hlen
    simp at hlen
  have hcont2 := hcont hne
  refine ⟨_, flush_master mb fd action hlen, rfl, ?_, ?_, ?_⟩
  · refine ⟨_, rfl, ?_⟩
    split_ifs <;> simp [fill_write_buffer_length, hsize]
  · intro a ha
    obtain ⟨x, xs, hev⟩ : ∃ x xs, mb.merged_events = x :: xs := by
      match hev2 : mb.merged_events with
      | [] => exact absurd hev2 hne
      | z :: zs => exact ⟨z, zs, rfl⟩
    rw [hev] at ha hcont2
    simp at ha
    rw [← ha]
    exact hcont2.1.symm
  · intro i h
    exact contiguousFrom_get mb.merged_events mb.merged_offset i h hcont2

/-- Witness for C3: two contiguous 2-byte events admitted into a fresh stage
with limit 8 and flushed as a Write master. -/
theorem merged_master_invariants_witness :
    (addAll (MergeBuffer.new 8) [evA, evB] = some mbC ∧ 2 ≤ mbC.merged_events.length) ∧
    (∃ m : IOEvent, (mbC.flush true 3 .Write).2 = .master m ∧
      m.sub_tasks = mbC.merged_events ∧
      (∃ b : List Nat, m.buf_or_len = .buffer b ∧ b.length = sizesSum m.sub_tasks) ∧
      (∀ a ∈ m.sub_tasks.head?, m.offset = a.offset) ∧
      (∀ i (h : i < m.sub_tasks.length),
        (m.sub_tasks.get ⟨i, h⟩).offset = m.offset + (sizesSum (m.sub_tasks.take i) : Int))) :=
  ⟨⟨rfl, by decide⟩,
   merged_master_invariants 8 [evA, evB] mbC 3 .Write rfl (by decide)⟩

end IoEngine
